import Mathlib

/-!
Shallow embedding of RiftRelay's admission/rate-limiting core
(`internal/limiter`: `state.go` / `headers.go` / `limiter.go`, and the
proxy adapter `internal/proxy/admission.go`) in Lean 4, together with
theorems settling the specification claims.

Modelling conventions:
* `time.Time` and `time.Duration` are both modeled as integer nanoseconds
  (`Int`); Go's zero `time.Time` is the integer `0` (`IsZero` ⇔ `= 0`).
* Go's integer division / remainder truncate toward zero, so they are
  modeled with `Int.tdiv` / `Int.tmod` (all divisions in this code happen
  on non-negative operands, where these agree with Euclidean division).
* Go maps keyed by strings are modeled as association lists where an
  insert replaces the previous binding; the wake heap is modeled by its
  contents (bucket → wake time), which is all the settled claims depend on.
* The event loop's mutations through pointers are modeled by explicit
  state passing, and replies sent on channels by an output list.
* `http.ParseTime` (the HTTP-date parser of the Go standard library) is
  not repository code; `parseRetryAfter` takes it as an explicit function
  argument.
-/

namespace RiftRelay

/-- `time.Time` as integer nanoseconds; `0` is Go's zero time. -/
abbrev GoTime := Int

/-- `time.Duration` as integer nanoseconds. -/
abbrev GoDuration := Int

/-- `time.Second` in nanoseconds. -/
def second : GoDuration := 1000000000

/-- `time.Millisecond` in nanoseconds. -/
def millisecond : GoDuration := 1000000

/-- `limitWindow` from `state.go`. -/
structure LimitWindow where
  limit : Int
  used : Int
  window : GoDuration
  resetAt : GoTime
deriving Repr, DecidableEq

/-- `rateState` from `state.go`. -/
structure RateState where
  windows : List LimitWindow
  blockedUntil : GoTime
  lastGranted : GoTime
deriving Repr, DecidableEq

/-- The zero-valued `rateState{}` allocated by `keyState.app` / `keyState.method`. -/
def RateState.fresh : RateState := ⟨[], 0, 0⟩

/-- The window-advancing step shared by `nextAllowed` and `consume`
(`state.go`): an expired window (`!w.resetAt.After(now)`) has `used`
reset to 0 and `resetAt` re-anchored to `now + window`. -/
def advanceWindow (now : GoTime) (w : LimitWindow) : LimitWindow :=
  if w.resetAt ≤ now then { w with used := 0, resetAt := now + w.window } else w

/-- One iteration of the window loop of `rateState.nextAllowed`
(`state.go` lines 25-64), acting on an already-advanced window. -/
def paceStep (now lastGranted : GoTime) (bypassPacing : Bool) (next : GoTime)
    (w : LimitWindow) : GoTime :=
  if w.limit ≤ w.used ∧ next < w.resetAt then w.resetAt
  else if bypassPacing then next
  else
    let requestsLeft := w.limit - w.used
    if requestsLeft ≤ 0 then next
    else
      let timeLeft := w.resetAt - now
      if timeLeft ≤ 0 then next
      else
        let interval := timeLeft.tdiv requestsLeft
        if interval ≤ 0 then next
        else
          let pacedAt :=
            if lastGranted ≠ 0 ∧ now < lastGranted + interval then lastGranted + interval
            else now
          if next < pacedAt then pacedAt else next

/-- `rateState.nextAllowed` from `state.go`. It also mutates the state
(advancing expired windows in place), so the updated state is returned. -/
def RateState.nextAllowed (s : RateState) (now : GoTime) (bypassPacing : Bool) :
    GoTime × RateState :=
  let base := if now < s.blockedUntil then s.blockedUntil else now
  let ws := s.windows.map (advanceWindow now)
  (ws.foldl (paceStep now s.lastGranted bypassPacing) base, { s with windows := ws })

/-- The first loop of `rateState.consume`: advance each window in order and
stop at the first fully-used one. On failure the scanned prefix stays
advanced (the Go loop mutates through a pointer before returning). -/
def consumeAdvance (now : GoTime) : List LimitWindow → Bool × List LimitWindow
  | [] => (true, [])
  | w :: rest =>
    let w2 := advanceWindow now w
    if w2.limit ≤ w2.used then (false, w2 :: rest)
    else
      let r := consumeAdvance now rest
      (r.1, w2 :: r.2)

/-- `rateState.consume` from `state.go` lines 69-90. -/
def RateState.consume (s : RateState) (now : GoTime) : Bool × RateState :=
  if now < s.blockedUntil then (false, s)
  else
    let r := consumeAdvance now s.windows
    if r.1 then
      (true, { s with windows := r.2.map (fun w => { w with used := w.used + 1 }),
                      lastGranted := now })
    else (false, { s with windows := r.2 })

/-- `parsedWindow` from `headers.go`. -/
structure ParsedWindow where
  limit : Int
  count : Int
  window : GoDuration
deriving Repr, DecidableEq

/-- The `existing` map of `rateState.apply` (`state.go` lines 101-104):
built by inserting each window keyed by its duration, so lookup returns
the last window with that duration. -/
def lookupWindow (ws : List LimitWindow) (d : GoDuration) : Option LimitWindow :=
  ws.foldl (fun acc w => if w.window = d then some w else acc) none

/-- The per-entry body of the window loop of `rateState.apply`
(`state.go` lines 107-134), returning the produced windows in order and
the `seenCount` flag (set from the capped `used` before the merge with a
prior window, exactly as in the source). -/
def applyWindows (existing : List LimitWindow) (now : GoTime) (additionalWindow : GoDuration) :
    List ParsedWindow → List LimitWindow × Bool
  | [] => ([], false)
  | p :: rest =>
    let r := applyWindows existing now additionalWindow rest
    if p.limit ≤ 0 ∨ p.window ≤ 0 then r
    else
      let cappedUsed := if p.limit < p.count then p.limit else p.count
      let next0 : LimitWindow :=
        ⟨p.limit, cappedUsed, p.window + additionalWindow, now + p.window + additionalWindow⟩
      let next :=
        match lookupWindow existing (p.window + additionalWindow) with
        | some old =>
          if now < old.resetAt then
            { next0 with used := if cappedUsed < old.used then old.used else cappedUsed,
                         resetAt := old.resetAt }
          else next0
        | none => next0
      (next :: r.1, (0 < cappedUsed) || r.2)

/-- `rateState.apply` from `state.go` lines 92-145. -/
def RateState.apply (s : RateState) (windows : List ParsedWindow) (retryAfter : Option GoTime)
    (applyRetry : Bool) (now : GoTime) (additionalWindow : GoDuration) : RateState :=
  let r :=
    if windows = [] then (s.windows, false)
    else applyWindows s.windows now additionalWindow windows
  let lastGranted := if s.lastGranted = 0 ∧ r.2 then now else s.lastGranted
  let blockedUntil :=
    match retryAfter with
    | some ra => if applyRetry ∧ s.blockedUntil < ra then ra else s.blockedUntil
    | none => s.blockedUntil
  { windows := r.1, blockedUntil := blockedUntil, lastGranted := lastGranted }

/-! ### Go string helpers used by `headers.go`
`strings.TrimSpace`, `strings.Split(s, ",")`, `strings.SplitN(s, ":", 2)`
and `strconv.Atoi`, modeled over `List Char`. `TrimSpace` is modeled for
the Latin-1 white-space set Go fast-paths (wider Unicode space classes do
not occur in the inputs the claims concern). -/

/-- The Latin-1 white space recognised by Go's `unicode.IsSpace`. -/
def goIsSpace (c : Char) : Bool :=
  c = ' ' ∨ c = '\t' ∨ c = '\n' ∨ c = Char.ofNat 11 ∨ c = Char.ofNat 12 ∨
  c = '\r' ∨ c = Char.ofNat 133 ∨ c = Char.ofNat 160

/-- `strings.TrimSpace` on a character list. -/
def trimSpaceList (cs : List Char) : List Char :=
  ((cs.dropWhile goIsSpace).reverse.dropWhile goIsSpace).reverse

/-- `strings.TrimSpace`. -/
def goTrimSpace (s : String) : String := ⟨trimSpaceList s.data⟩

/-- `strings.Split(s, sep)` for a one-character separator: `""` yields `[""]`. -/
def goSplitList (sep : Char) : List Char → List (List Char)
  | [] => [[]]
  | c :: rest =>
    match goSplitList sep rest with
    | [] => [[]]
    | f :: fs => if c = sep then [] :: f :: fs else (c :: f) :: fs

/-- Split at the first occurrence of `sep`; `none` when `sep` is absent.
`strings.SplitN(s, sep, 2)` returns two parts exactly when this is `some`. -/
def splitFirst (sep : Char) : List Char → Option (List Char × List Char)
  | [] => none
  | c :: rest =>
    if c = sep then some ([], rest)
    else
      match splitFirst sep rest with
      | none => none
      | some r => some (c :: r.1, r.2)

/-- `strconv.Atoi` on a character list: optional sign, at least one digit,
nothing else, 64-bit range (out-of-range input is an error, which every
caller in `headers.go` treats the same as a parse failure). -/
def goAtoiList (cs : List Char) : Option Int :=
  match cs with
  | [] => none
  | c :: rest =>
    let signed : Bool × List Char :=
      if c = '-' then (true, rest) else if c = '+' then (false, rest) else (false, cs)
    match signed with
    | (neg, digits) =>
      if digits = [] then none
      else if digits.all Char.isDigit then
        let v : Int := digits.foldl (fun a d => a * 10 + ((d.toNat : Int) - 48)) 0
        let n : Int := if neg then -v else v
        if n < -(2 ^ 63) ∨ 2 ^ 63 - 1 < n then none else some n
      else none

/-- `strconv.Atoi`. -/
def goAtoi (s : String) : Option Int := goAtoiList s.data

/-- One `"limit:windowSeconds"` entry of the limit header
(`headers.go` lines 46-59): `none` exactly when the entry is skipped. -/
def parseLimitEntry (entry : List Char) : Option (Int × Int) :=
  match splitFirst ':' (trimSpaceList entry) with
  | none => none
  | some lParts =>
    match goAtoiList lParts.1 with
    | none => none
    | some limit =>
      if limit ≤ 0 then none
      else
        match goAtoiList lParts.2 with
        | none => none
        | some windowSecs => if windowSecs ≤ 0 then none else some (limit, windowSecs)

/-- One `"count:windowSeconds"` entry of the count header
(`headers.go` lines 61-69): malformed or negative counts fall back to 0. -/
def parseCountEntry (entry : List Char) : Int :=
  match splitFirst ':' (trimSpaceList entry) with
  | none => 0
  | some cParts =>
    match goAtoiList cParts.1 with
    | some n => if 0 ≤ n then n else 0
    | none => 0

/-- The entry loop of `parseRateHeader` (`headers.go` lines 45-76):
walks the limit entries, pairing each with the count entry at the same
index (count 0 when the count list is shorter). -/
def parseEntries : List (List Char) → List (List Char) → List ParsedWindow
  | [], _ => []
  | l :: ls, cs =>
    let rest := parseEntries ls cs.tail
    match parseLimitEntry l with
    | none => rest
    | some lw =>
      let count := match cs with
        | [] => 0
        | c :: _ => parseCountEntry c
      ⟨lw.1, count, lw.2 * second⟩ :: rest

/-- `parseRateHeader` from `headers.go` lines 36-79. -/
def parseRateHeader (limitHeader countHeader : String) : List ParsedWindow :=
  match goSplitList ',' (trimSpaceList limitHeader.data) with
  | [] => []
  | first :: restAll =>
    if first = [] then []
    else parseEntries (first :: restAll) (goSplitList ',' (trimSpaceList countHeader.data))

/-- `parseRetryAfter` from `headers.go` lines 16-34. `http.ParseTime`
(standard library, not repository code) is passed in as `parseTime`. -/
def parseRetryAfter (parseTime : String → Option GoTime) (v : String) (now : GoTime) :
    Option GoTime :=
  let value := goTrimSpace v
  if value = "" then none
  else
    let viaDate : Option GoTime :=
      match parseTime value with
      | some ts => some (if ts < now then now else ts)
      | none => none
    match goAtoi value with
    | some secs => if 0 ≤ secs then some (now + secs * second) else viaDate
    | none => viaDate

/-! ### Key state, credential selection and the event loop (`limiter.go`) -/

/-- `Priority` from `types.go`. -/
inductive Priority where
  | normal
  | high
deriving Repr, DecidableEq

/-- `keyState` from `state.go`: two maps of rate states, modeled as
association lists where insert replaces the previous binding. -/
structure KeyState where
  appByRegion : List (String × RateState)
  methodByBucket : List (String × RateState)
deriving Repr, DecidableEq

/-- `newKeyState` from `state.go` lines 152-157: both maps start empty. -/
def newKeyState : KeyState := ⟨[], []⟩

/-- Map lookup with the get-or-create behaviour of `keyState.app` /
`keyState.method`: a missing key yields a fresh zero `rateState{}`. -/
def lookupState (m : List (String × RateState)) (k : String) : RateState :=
  match m.find? (fun p => p.1 = k) with
  | some p => p.2
  | none => RateState.fresh

/-- Map insert/replace, modelling assignment through the pointer returned
by `keyState.app` / `keyState.method`. -/
def updateState (m : List (String × RateState)) (k : String) (s : RateState) :
    List (String × RateState) :=
  match m with
  | [] => [(k, s)]
  | p :: rest => if p.1 = k then (k, s) :: rest else p :: updateState rest k s

/-- `key.app(region).nextAllowed(now, bypassPacing)` with its in-place
mutation of the app state written back. -/
def KeyState.appNextAllowed (k : KeyState) (region : String) (now : GoTime)
    (bypassPacing : Bool) : GoTime × KeyState :=
  let r := (lookupState k.appByRegion region).nextAllowed now bypassPacing
  (r.1, { k with appByRegion := updateState k.appByRegion region r.2 })

/-- `key.method(bucket).nextAllowed(now, bypassPacing)` with write-back. -/
def KeyState.methodNextAllowed (k : KeyState) (bucket : String) (now : GoTime)
    (bypassPacing : Bool) : GoTime × KeyState :=
  let r := (lookupState k.methodByBucket bucket).nextAllowed now bypassPacing
  (r.1, { k with methodByBucket := updateState k.methodByBucket bucket r.2 })

/-- `key.app(region).consume(now)` with write-back. -/
def KeyState.consumeApp (k : KeyState) (region : String) (now : GoTime) : Bool × KeyState :=
  let r := (lookupState k.appByRegion region).consume now
  (r.1, { k with appByRegion := updateState k.appByRegion region r.2 })

/-- `key.method(bucket).consume(now)` with write-back. -/
def KeyState.consumeMethod (k : KeyState) (bucket : String) (now : GoTime) : Bool × KeyState :=
  let r := (lookupState k.methodByBucket bucket).consume now
  (r.1, { k with methodByBucket := updateState k.methodByBucket bucket r.2 })

/-- The per-credential body of the `pickKey` loop (`limiter.go` lines
273-286): `readyAt = max(appReadyAt, methodReadyAt)`, with the two
`nextAllowed` mutations threaded through the key. -/
def keyReadyAt (now : GoTime) (region bucket : String) (bypassPacing : Bool)
    (k : KeyState) : GoTime × KeyState :=
  let ra := k.appNextAllowed region now bypassPacing
  let rm := ra.2.methodNextAllowed bucket now bypassPacing
  (if ra.1 < rm.1 then rm.1 else ra.1, rm.2)

/-- The ready time `pickKey` computes for one credential. -/
def readyTime (now : GoTime) (region bucket : String) (bypassPacing : Bool)
    (k : KeyState) : GoTime :=
  (keyReadyAt now region bucket bypassPacing k).1

/-- The `bestIndex`/`bestAt` selection of the `pickKey` loop, separated
from the state updates: a candidate replaces the best only when
`bestIndex < 0` or it is strictly earlier. -/
def selectMin : List GoTime → Int → Int → GoTime → Int × GoTime
  | [], _, bestIndex, bestAt => (bestIndex, bestAt)
  | t :: rest, i, bestIndex, bestAt =>
    if bestIndex < 0 ∨ t < bestAt then selectMin rest (i + 1) i t
    else selectMin rest (i + 1) bestIndex bestAt

/-- The loop of `pickKey` (`limiter.go` lines 273-286), returning the
mutated credentials and the selection accumulator. -/
def pickKeyLoop (now : GoTime) (region bucket : String) (bypassPacing : Bool) :
    List KeyState → Int → Int → GoTime → List KeyState × Int × GoTime
  | [], _, bestIndex, bestAt => ([], bestIndex, bestAt)
  | k :: rest, i, bestIndex, bestAt =>
    let rk := keyReadyAt now region bucket bypassPacing k
    let r :=
      if bestIndex < 0 ∨ rk.1 < bestAt then
        pickKeyLoop now region bucket bypassPacing rest (i + 1) i rk.1
      else pickKeyLoop now region bucket bypassPacing rest (i + 1) bestIndex bestAt
    (rk.2 :: r.1, r.2)

/-- `Limiter.pickKey` from `limiter.go` lines 268-292. `bestAt` starts at
the zero time; the zero-valued start never survives because it is only
kept while `bestIndex < 0`. -/
def pickKey (now : GoTime) (keys : List KeyState) (region bucket : String)
    (priority : Priority) : (Int × GoTime) × List KeyState :=
  let bypassPacing := priority = Priority.high
  let r := pickKeyLoop now region bucket bypassPacing keys 0 (-1) 0
  if r.2.1 < 0 then ((-1, now + second), r.1) else ((r.2.1, r.2.2), r.1)

/-- An `admitRequest` as the loop sees it: `ctx.Err() != nil` is the
`cancelled` flag, the rest is the `Admission` plus submission time. -/
structure AdmitRequest where
  cancelled : Bool
  region : String
  bucket : String
  priority : Priority
  received : GoTime
deriving Repr, DecidableEq

/-- A reply posted on an `admitRequest`'s response channel. -/
inductive Outcome where
  | ticket (keyIndex : Int)
  | rejected (reason : String) (retryAfter : GoDuration)
  | ctxError
deriving Repr, DecidableEq

/-- `bucketQueue` from `bucketqueue.go` (the wake time and heap index
live in the wake-set model below). -/
structure BucketQueue where
  region : String
  bucket : String
  high : List AdmitRequest
  normal : List AdmitRequest
deriving Repr, DecidableEq

/-- `bucketQueue.depth`. -/
def BucketQueue.depth (b : BucketQueue) : Int :=
  (b.high.length : Int) + (b.normal.length : Int)

/-- Pop the first non-cancelled request of one class, discarding the
cancelled ones scanned on the way (as the Go loop drops them). -/
def popValid : List AdmitRequest → Option (AdmitRequest × List AdmitRequest)
  | [] => none
  | r :: rest => if r.cancelled then popValid rest else some (r, rest)

/-- `bucketQueue.dequeueValid`: high first, then normal. Cancelled
requests scanned on the way are discarded from the queues even when the
result is `none` (the Go method pops them before skipping them). -/
def BucketQueue.dequeueValid (b : BucketQueue) :
    Option AdmitRequest × BucketQueue :=
  match popValid b.high with
  | some r => (some r.1, { b with high := r.2 })
  | none =>
    match popValid b.normal with
    | some r => (some r.1, { b with high := [], normal := r.2 })
    | none => (none, { b with high := [], normal := [] })

/-- `bucketQueue.enqueue`: append by priority class. -/
def BucketQueue.enqueue (b : BucketQueue) (req : AdmitRequest) : BucketQueue :=
  if req.priority = Priority.high then { b with high := b.high ++ [req] }
  else { b with normal := b.normal ++ [req] }

/-- The wake heap modeled by its contents: bucket name → wake time. -/
abbrev Wakes := List (String × GoTime)

/-- `removeWake` from `bucketqueue.go`. -/
def removeWake (ws : Wakes) (bucket : String) : Wakes :=
  ws.filter (fun p => p.1 ≠ bucket)

/-- `upsertWake` from `bucketqueue.go`: a zero time removes the bucket. -/
def upsertWake (ws : Wakes) (bucket : String) (at_ : GoTime) : Wakes :=
  if at_ = 0 then removeWake ws bucket
  else (bucket, at_) :: removeWake ws bucket

/-- State threaded through `dispatch`, plus the replies it emitted. -/
structure DispatchResult where
  bucket : BucketQueue
  keys : List KeyState
  wakes : Wakes
  out : List (AdmitRequest × Outcome)
deriving Repr, DecidableEq

/-- `Limiter.dispatch` from `limiter.go` lines 219-266, with a fuel
argument bounding the loop (each continuing iteration removes at least
one queued request, so `depth` fuel is always enough; fuel exhaustion
returns the state unchanged and is never reached from the claims'
inputs). The clock is modeled as constant across one dispatch run. -/
def dispatch (now : GoTime) : Nat → BucketQueue → List KeyState → Wakes → DispatchResult
  | 0, b, keys, wakes => ⟨b, keys, wakes, []⟩
  | fuel + 1, b, keys, wakes =>
    match b.dequeueValid with
    | (none, b1) => ⟨b1, keys, removeWake wakes b.bucket, []⟩
    | (some req, b1) =>
      let pk := pickKey now keys b.region b.bucket req.priority
      let keyIndex := pk.1.1
      let earliest := pk.1.2
      let keys1 := pk.2
      if keyIndex < 0 then
        let r := dispatch now fuel b1 keys1 wakes
        { r with out := (req, Outcome.rejected "no_available_key" second) :: r.out }
      else if now < earliest then
        let b2 :=
          if req.priority = Priority.high then { b1 with high := req :: b1.high }
          else { b1 with normal := req :: b1.normal }
        ⟨b2, keys1, upsertWake wakes b.bucket earliest, []⟩
      else
        let k := keys1.getD keyIndex.toNat newKeyState
        let ca := k.consumeApp b.region now
        let afterApp := keys1.set keyIndex.toNat ca.2
        if ¬ca.1 then
          let b2 :=
            if req.priority = Priority.high then { b1 with high := req :: b1.high }
            else { b1 with normal := req :: b1.normal }
          ⟨b2, afterApp, upsertWake wakes b.bucket (now + 5 * millisecond), []⟩
        else
          let cm := ca.2.consumeMethod b.bucket now
          let afterMethod := keys1.set keyIndex.toNat cm.2
          if ¬cm.1 then
            let b2 :=
              if req.priority = Priority.high then { b1 with high := req :: b1.high }
              else { b1 with normal := req :: b1.normal }
            ⟨b2, afterMethod, upsertWake wakes b.bucket (now + 5 * millisecond), []⟩
          else
            let r := dispatch now fuel b1 afterMethod wakes
            { r with out := (req, Outcome.ticket keyIndex) :: r.out }

/-- `Config` from `types.go` (clock and metrics are modeled directly by
the explicit `now` arguments and the emitted outcomes). -/
structure Config where
  keyCount : Int
  queueCapacity : Int
  additionalWindow : GoDuration
  defaultAppLimits : String
deriving Repr, DecidableEq

/-- The validation of `New` (`limiter.go` lines 21-27). -/
def newOk (cfg : Config) : Bool := 0 < cfg.keyCount ∧ 0 < cfg.queueCapacity

/-- The credential initialisation of `Limiter.loop` (`limiter.go` lines
88-91): `KeyCount` copies of `newKeyState()`. -/
def loopInitKeys (cfg : Config) : List KeyState :=
  List.replicate cfg.keyCount.toNat newKeyState

/-- The loop's bucket map. -/
abbrev Buckets := List (String × BucketQueue)

/-- Bucket map lookup. -/
def lookupBucket (bs : Buckets) (name : String) : Option BucketQueue :=
  match bs.find? (fun p => p.1 = name) with
  | some p => some p.2
  | none => none

/-- Bucket map insert/replace. -/
def updateBucket (bs : Buckets) (name : String) (b : BucketQueue) : Buckets :=
  match bs with
  | [] => [(name, b)]
  | p :: rest => if p.1 = name then (name, b) :: rest else p :: updateBucket rest name b

/-- State threaded through `handleAdmit`, plus the replies emitted. -/
structure AdmitResult where
  keys : List KeyState
  buckets : Buckets
  wakes : Wakes
  out : List (AdmitRequest × Outcome)
deriving Repr, DecidableEq

/-- `maxDuration` from `limiter.go` lines 307-312. -/
def maxDuration (a b : GoDuration) : GoDuration := if b < a then a else b

/-- `Limiter.handleAdmit` from `limiter.go` lines 141-181 (metrics calls
are side-effect free for the core state and are not modeled). -/
def handleAdmit (cfg : Config) (now : GoTime) (req : AdmitRequest) (keys : List KeyState)
    (buckets : Buckets) (wakes : Wakes) : AdmitResult :=
  if req.cancelled then ⟨keys, buckets, wakes, [(req, Outcome.ctxError)]⟩
  else
    let found := lookupBucket buckets req.bucket
    let bucket :=
      match found with
      | some b => b
      | none => ⟨req.region, req.bucket, [], []⟩
    let buckets1 :=
      match found with
      | some _ => buckets
      | none => updateBucket buckets req.bucket bucket
    if cfg.queueCapacity ≤ bucket.depth then
      let pk := pickKey now keys bucket.region bucket.bucket req.priority
      ⟨pk.2, buckets1, wakes,
        [(req, Outcome.rejected "queue_full" (maxDuration (pk.1.2 - now) second))]⟩
    else
      let b1 := bucket.enqueue req
      let r := dispatch now b1.depth.toNat b1 keys wakes
      ⟨r.keys, updateBucket buckets1 req.bucket r.bucket, r.wakes, r.out⟩

/-! ### The proxy adapter's rejection mapping (`internal/proxy/admission.go`) -/

/-- An error returned by `Admit` as the middleware distinguishes it:
either a `*limiter.RejectedError` or any other error (context errors). -/
inductive AdmitError where
  | rejected (reason : String) (retryAfter : GoDuration)
  | other
deriving Repr, DecidableEq

/-- `time.Duration.Round` from the Go standard library (used by the
middleware with `m = time.Second`); rounds to the nearest multiple of
`m`, half away from zero. The overflow clamps cannot fire for the
durations the middleware rounds and are not modeled. -/
def goDurationRound (d m : GoDuration) : GoDuration :=
  if m ≤ 0 then d
  else
    let r := d.tmod m
    if d < 0 then
      let r := -r
      if r + r < m then d + r else d - m + r
    else if r + r < m then d - r else d + m - r

/-- The error branch of `admissionMiddleware` (`admission.go` lines
68-82): the HTTP status and the `Retry-After` header value written for a
failed `Admit`. `int(d.Seconds())` on an exact multiple of a second is
integer division by `time.Second`. -/
def admissionRejectHTTP (e : AdmitError) : Int × String :=
  let retryAfter : GoDuration :=
    match e with
    | AdmitError.rejected _ ra => if 0 < ra then ra else second
    | AdmitError.other => second
  (429, toString ((goDurationRound retryAfter second).tdiv second))

/-- Rate states reachable from a fresh scope through the loop's three
operations (`nextAllowed`, `consume`, `apply`), where `apply` is fed
windows parsed from headers as `handleObservation` does. -/
inductive Reachable : RateState → Prop where
  | fresh : Reachable RateState.fresh
  | next (s : RateState) (now : GoTime) (bp : Bool) : Reachable s →
      Reachable (s.nextAllowed now bp).2
  | consume (s : RateState) (now : GoTime) : Reachable s →
      Reachable (s.consume now).2
  | apply (s : RateState) (lh ch : String) (retryAfter : Option GoTime)
      (applyRetry : Bool) (now : GoTime) (aw : GoDuration) : Reachable s →
      Reachable (s.apply (parseRateHeader lh ch) retryAfter applyRetry now aw)

/-! ## Theorems -/

/-! ### Helper lemmas on `consume` -/

theorem consumeAdvance_cons (now : GoTime) (w : LimitWindow) (rest : List LimitWindow) :
    consumeAdvance now (w :: rest) =
      if (advanceWindow now w).limit ≤ (advanceWindow now w).used
      then (false, advanceWindow now w :: rest)
      else ((consumeAdvance now rest).1, advanceWindow now w :: (consumeAdvance now rest).2) := by
  rfl

theorem consumeAdvance_true (now : GoTime) (ws : List LimitWindow)
    (h : (consumeAdvance now ws).1 = true) :
    (consumeAdvance now ws).2 = ws.map (advanceWindow now) := by
  induction ws with
  | nil => rfl
  | cons w rest ih =>
    rw [consumeAdvance_cons] at h ⊢
    by_cases hw : (advanceWindow now w).limit ≤ (advanceWindow now w).used
    · rw [if_pos hw] at h
      exact absurd h (by simp)
    · rw [if_neg hw] at h ⊢
      simp only [List.map_cons]
      exact congrArg _ (ih h)

theorem consumeAdvance_prefix (now : GoTime) (ws : List LimitWindow) :
    ∃ k, (consumeAdvance now ws).2 =
      (ws.take k).map (advanceWindow now) ++ ws.drop k := by
  induction ws with
  | nil => exact ⟨0, rfl⟩
  | cons w rest ih =>
    by_cases hw : (advanceWindow now w).limit ≤ (advanceWindow now w).used
    · refine ⟨1, ?_⟩
      rw [consumeAdvance_cons, if_pos hw]
      simp
    · obtain ⟨k, hk⟩ := ih
      refine ⟨k + 1, ?_⟩
      rw [consumeAdvance_cons, if_neg hw]
      simp [hk]

theorem consumeAdvance_unexpired (now : GoTime) (ws : List LimitWindow)
    (h : ∀ w ∈ ws, now < w.resetAt) :
    (consumeAdvance now ws).2 = ws := by
  induction ws with
  | nil => rfl
  | cons w rest ih =>
    have hw : advanceWindow now w = w := by
      have hlt := h w (by simp)
      simp [advanceWindow, not_le.mpr hlt]
    rw [consumeAdvance_cons, hw]
    by_cases hc : w.limit ≤ w.used
    · rw [if_pos hc]
    · rw [if_neg hc]
      simp only
      exact congrArg _ (ih (fun x hx => h x (by simp [hx])))

/-- Unfolding equation for `RateState.consume`. -/
theorem consume_eq (s : RateState) (now : GoTime) :
    s.consume now =
      if now < s.blockedUntil then (false, s)
      else if (consumeAdvance now s.windows).1 then
        (true, ⟨(consumeAdvance now s.windows).2.map (fun w => { w with used := w.used + 1 }),
          s.blockedUntil, now⟩)
      else (false, ⟨(consumeAdvance now s.windows).2, s.blockedUntil, s.lastGranted⟩) := by
  rfl

/-! ### C1 -/

/-- C1: claimed that a limiter built by `New` with non-empty
`DefaultAppLimits` starts every credential's app-level rate state with
the configured starter windows. The code never consumes
`Config.DefaultAppLimits`: `loop` initialises every credential with
`newKeyState()` (empty maps), so every app scope starts as the zero
`rateState{}` with no windows at all, although the configured default
string parses to a non-empty window list. This contradicts the
repository's own tests (`TestDefaultRateLimitsAppliedBeforeObservation`,
`TestDefaultRateLimitsPreventBurstOnStartup`). -/
theorem c1_defaultAppLimits_ignored (cfg : Config) (region : String) :
    loopInitKeys cfg = loopInitKeys ⟨cfg.keyCount, cfg.queueCapacity, cfg.additionalWindow, ""⟩ ∧
    (lookupState ((loopInitKeys cfg).headD newKeyState).appByRegion region).windows = [] ∧
    parseRateHeader "20:1" "" = [⟨20, 0, second⟩] := by
  refine ⟨rfl, ?_, by decide⟩
  have hmem : (loopInitKeys cfg).headD newKeyState = newKeyState := by
    unfold loopInitKeys
    cases h : cfg.keyCount.toNat with
    | zero => rfl
    | succ n => rfl
  rw [hmem]
  rfl

/-! ### C2 -/

/-- C2 counterexample: `consume` returning false is claimed to leave the
state completely unchanged, but the scan advances expired windows before
denying. Here the first window is expired (its `used` drops from 2 to 0
and its `resetAt` is re-anchored) and the second window is exhausted, so
`consume` denies after having mutated the first window. -/
theorem c2_counterexample :
    ((RateState.consume ⟨[⟨2, 2, 2 * second, 1000 * second⟩,
        ⟨1, 1, 5 * second, 1000 * second + 5 * second⟩], 0, 0⟩ (1000 * second)).1 = false) ∧
    (RateState.consume ⟨[⟨2, 2, 2 * second, 1000 * second⟩,
        ⟨1, 1, 5 * second, 1000 * second + 5 * second⟩], 0, 0⟩ (1000 * second)).2 ≠
      ⟨[⟨2, 2, 2 * second, 1000 * second⟩,
        ⟨1, 1, 5 * second, 1000 * second + 5 * second⟩], 0, 0⟩ := by
  constructor <;> decide

/-- C2 (amended): when `consume(now)` returns true, every window's `used`
is exactly one more than in the expiry-advanced window and `lastGranted`
is set to `now`; when it returns false, `blockedUntil` and `lastGranted`
are untouched and the windows are the original list with some prefix
expiry-advanced; in particular when no window is expired at `now`, a
false result leaves the state completely unchanged. -/
theorem c2_consume_mutation (s : RateState) (now : GoTime) :
    ((s.consume now).1 = true →
      (s.consume now).2.windows =
        s.windows.map (fun w => { advanceWindow now w with used := (advanceWindow now w).used + 1 }) ∧
      (s.consume now).2.lastGranted = now ∧
      (s.consume now).2.blockedUntil = s.blockedUntil) ∧
    ((s.consume now).1 = false →
      (s.consume now).2.blockedUntil = s.blockedUntil ∧
      (s.consume now).2.lastGranted = s.lastGranted ∧
      ∃ k, (s.consume now).2.windows =
        (s.windows.take k).map (advanceWindow now) ++ s.windows.drop k) ∧
    ((∀ w ∈ s.windows, now < w.resetAt) → (s.consume now).1 = false →
      (s.consume now).2 = s) := by
  refine ⟨?_, ?_, ?_⟩
  · intro h
    rw [consume_eq] at h ⊢
    by_cases hb : now < s.blockedUntil
    · rw [if_pos hb] at h
      exact absurd h (by simp)
    · rw [if_neg hb] at h ⊢
      by_cases ht : (consumeAdvance now s.windows).1 = true
      · rw [if_pos ht]
        refine ⟨?_, rfl, rfl⟩
        show (consumeAdvance now s.windows).2.map (fun w => { w with used := w.used + 1 }) = _
        rw [consumeAdvance_true now s.windows ht, List.map_map]
        rfl
      · rw [if_neg ht] at h
        exact absurd h (by simp)
  · intro h
    rw [consume_eq] at h ⊢
    by_cases hb : now < s.blockedUntil
    · rw [if_pos hb]
      exact ⟨rfl, rfl, 0, by simp⟩
    · rw [if_neg hb] at h ⊢
      by_cases ht : (consumeAdvance now s.windows).1 = true
      · rw [if_pos ht] at h
        exact absurd h (by simp)
      · rw [if_neg ht]
        exact ⟨rfl, rfl, consumeAdvance_prefix now s.windows⟩
  · intro hw h
    rw [consume_eq] at h ⊢
    by_cases hb : now < s.blockedUntil
    · rw [if_pos hb]
    · rw [if_neg hb] at h ⊢
      by_cases ht : (consumeAdvance now s.windows).1 = true
      · rw [if_pos ht] at h
        exact absurd h (by simp)
      · rw [if_neg ht]
        show (⟨(consumeAdvance now s.windows).2, s.blockedUntil, s.lastGranted⟩ : RateState) = s
        rw [consumeAdvance_unexpired now s.windows hw]

/-- Witness for `c2_consume_mutation`: a concrete success. -/
theorem c2_consume_mutation_witness :
    ((RateState.consume ⟨[⟨5, 2, 5 * second, 1000 * second + 5 * second⟩], 0, 0⟩
        (1000 * second)).1 = true) ∧
    (RateState.consume ⟨[⟨5, 2, 5 * second, 1000 * second + 5 * second⟩], 0, 0⟩
        (1000 * second)).2.lastGranted = 1000 * second := by
  refine ⟨by decide, ?_⟩
  exact ((c2_consume_mutation ⟨[⟨5, 2, 5 * second, 1000 * second + 5 * second⟩], 0, 0⟩
    (1000 * second)).1 (by decide)).2.1

/-! ### C5 -/

theorem parseEntries_cons (l : List Char) (ls cs : List (List Char)) :
    parseEntries (l :: ls) cs =
      match parseLimitEntry l with
      | none => parseEntries ls cs.tail
      | some lw =>
        ⟨lw.1, (match cs with | [] => 0 | c :: _ => parseCountEntry c), lw.2 * second⟩ ::
          parseEntries ls cs.tail := by
  rfl

theorem parseEntries_all_malformed (ls cs : List (List Char))
    (h : ∀ l ∈ ls, parseLimitEntry l = none) : parseEntries ls cs = [] := by
  induction ls generalizing cs with
  | nil => rfl
  | cons l rest ih =>
    rw [parseEntries_cons, h l (by simp)]
    exact ih cs.tail (fun x hx => h x (by simp [hx]))

/-- C5 counterexample: the claim says a limit list with a malformed
prefix (here a non-positive limit in the first entry) parses to the
empty list, but `parseRateHeader` skips malformed entries individually
and still returns the well-formed remainder. -/
theorem c5_counterexample :
    parseRateHeader "0:1,100:120" "4:1,40:120" = [⟨100, 40, 120 * second⟩] ∧
    parseRateHeader "0:1,100:120" "4:1,40:120" ≠ [] := by
  constructor <;> decide

/-- C5 (amended): `parseRateHeader("20:1,100:120", "4:1,40:120")` returns
exactly the two windows `(limit 20, count 4, 1s)` and
`(limit 100, count 40, 120s)`; malformed entries (unparseable integers,
non-positive limit or window) are skipped individually, and the result is
the empty list when every limit entry is malformed. -/
theorem c5_parseRateHeader (lh ch : String)
    (h : ∀ l ∈ goSplitList ',' (trimSpaceList lh.data), parseLimitEntry l = none) :
    parseRateHeader "20:1,100:120" "4:1,40:120" =
      [⟨20, 4, second⟩, ⟨100, 40, 120 * second⟩] ∧
    parseRateHeader lh ch = [] := by
  refine ⟨by decide, ?_⟩
  unfold parseRateHeader
  cases hs : goSplitList ',' (trimSpaceList lh.data) with
  | nil => rfl
  | cons first restAll =>
    rw [hs] at h
    show (if first = [] then []
      else parseEntries (first :: restAll) (goSplitList ',' (trimSpaceList ch.data))) = []
    by_cases hf : first = []
    · rw [if_pos hf]
    · rw [if_neg hf]
      exact parseEntries_all_malformed _ _ h

/-- Witness for `c5_parseRateHeader`: the repository's own
"invalid returns empty" test input. -/
theorem c5_parseRateHeader_witness :
    (∀ l ∈ goSplitList ',' (trimSpaceList "broken".data), parseLimitEntry l = none) ∧
    parseRateHeader "broken" "1:1" = [] := by
  refine ⟨by decide, ?_⟩
  exact (c5_parseRateHeader "broken" "1:1" (by decide)).2

/-! ### C6 -/

/-- C6: `parseRetryAfter("2", now) = now + 2s`; an HTTP-date (a string
the date parser accepts and `Atoi` does not) at or after `now` is
returned as is, one before `now` collapses to `now`; the empty string, a
negative integer, and unparseable strings all yield `none`. -/
theorem c6_parseRetryAfter (parseTime : String → Option GoTime) (now : GoTime) :
    (parseRetryAfter parseTime "2" now = some (now + 2 * second)) ∧
    (∀ h t, goTrimSpace h ≠ "" → goAtoi (goTrimSpace h) = none →
      parseTime (goTrimSpace h) = some t → now ≤ t →
      parseRetryAfter parseTime h now = some t) ∧
    (∀ h t, goTrimSpace h ≠ "" → goAtoi (goTrimSpace h) = none →
      parseTime (goTrimSpace h) = some t → t < now →
      parseRetryAfter parseTime h now = some now) ∧
    (∀ v, goTrimSpace v = "" → parseRetryAfter parseTime v now = none) ∧
    (∀ v n, goAtoi (goTrimSpace v) = some n → n < 0 →
      parseTime (goTrimSpace v) = none → parseRetryAfter parseTime v now = none) ∧
    (∀ v, goTrimSpace v ≠ "" → goAtoi (goTrimSpace v) = none →
      parseTime (goTrimSpace v) = none → parseRetryAfter parseTime v now = none) := by
  have peq : ∀ v, parseRetryAfter parseTime v now =
      if goTrimSpace v = "" then none
      else
        match goAtoi (goTrimSpace v) with
        | some secs =>
          if 0 ≤ secs then some (now + secs * second)
          else
            match parseTime (goTrimSpace v) with
            | some ts => some (if ts < now then now else ts)
            | none => none
        | none =>
          match parseTime (goTrimSpace v) with
          | some ts => some (if ts < now then now else ts)
          | none => none := fun _ => rfl
  refine ⟨?_, ?_, ?_, ?_, ?_, ?_⟩
  · rfl
  · intro h t hne hatoi hpt hle
    rw [peq, if_neg hne, hatoi, hpt]
    show some (if t < now then now else t) = some t
    rw [if_neg (not_lt.mpr hle)]
  · intro h t hne hatoi hpt hlt
    rw [peq, if_neg hne, hatoi, hpt]
    show some (if t < now then now else t) = some now
    rw [if_pos hlt]
  · intro v hv
    rw [peq, if_pos hv]
  · intro v n hatoi hneg hpt
    have hne : goTrimSpace v ≠ "" := by
      intro he
      rw [he] at hatoi
      exact Option.noConfusion hatoi
    rw [peq, if_neg hne, hatoi, hpt]
    show (if 0 ≤ n then some (now + n * second) else none) = none
    rw [if_neg (not_le.mpr hneg)]
  · intro v hne hatoi hpt
    rw [peq, if_neg hne, hatoi, hpt]

/-- Witness for `c6_parseRetryAfter`: a concrete date parser accepting a
single string, exercised on every hypothesis-bearing conjunct. -/
theorem c6_parseRetryAfter_witness :
    (parseRetryAfter (fun s => if s = "X" then some (5 * second) else none) "X" 0 =
      some (5 * second)) ∧
    (parseRetryAfter (fun s => if s = "X" then some (5 * second) else none) "X" (9 * second) =
      some (9 * second)) ∧
    (parseRetryAfter (fun s => if s = "X" then some (5 * second) else none) "" 0 = none) ∧
    (parseRetryAfter (fun s => if s = "X" then some (5 * second) else none) "-2" 0 = none) ∧
    (parseRetryAfter (fun s => if s = "X" then some (5 * second) else none) "zz" 0 = none) := by
  refine ⟨?_, ?_, ?_, ?_, ?_⟩
  · exact (c6_parseRetryAfter _ 0).2.1 "X" (5 * second) (by decide) (by decide)
      (by decide) (by decide)
  · exact (c6_parseRetryAfter _ (9 * second)).2.2.1 "X" (5 * second) (by decide) (by decide)
      (by decide) (by decide)
  · exact (c6_parseRetryAfter _ 0).2.2.2.1 "" (by decide)
  · exact (c6_parseRetryAfter _ 0).2.2.2.2.1 "-2" (-2) (by decide) (by decide) (by decide)
  · exact (c6_parseRetryAfter _ 0).2.2.2.2.2 "zz" (by decide) (by decide) (by decide)

/-! ### C9 -/

/-- C9 counterexample: the claim maps `shutting_down` to 503 and
`invalid_route` to 400, but `admissionMiddleware` answers 429 for every
failed `Admit` (with `Retry-After: 1` when the rejection carries no
positive `RetryAfter`). -/
theorem c9_counterexample :
    admissionRejectHTTP (AdmitError.rejected "shutting_down" 0) = (429, "1") ∧
    (admissionRejectHTTP (AdmitError.rejected "shutting_down" 0)).1 ≠ 503 ∧
    admissionRejectHTTP (AdmitError.rejected "invalid_route" 0) = (429, "1") ∧
    (admissionRejectHTTP (AdmitError.rejected "invalid_route" 0)).1 ≠ 400 := by
  refine ⟨by decide, by decide, by decide, by decide⟩

/-- C9 (amended): the proxy adapter maps every failed `Admit` — all four
rejection reasons, `queue_full` and `no_available_key` included, and
context errors alike — to 429 Too Many Requests; `Retry-After` is the
rejection's `RetryAfter` rounded to the nearest whole second (half away
from zero: a remainder `r` with `r + r < 1s` rounds down, otherwise up),
defaulting to 1 when the error carries no positive `RetryAfter`. Neither
400 nor 503 is ever produced, and the seconds value is rounded, not the
ceiling. -/
theorem c9_admission_mapping :
    (∀ e : AdmitError, (admissionRejectHTTP e).1 = 429) ∧
    (∀ (reason : String) (ra q r : Int), ra = second * q + r → 0 ≤ r → r < second → 0 < ra →
      (admissionRejectHTTP (AdmitError.rejected reason ra)).2 =
        toString (if r + r < second then q else q + 1)) ∧
    (∀ (reason : String) (ra : Int), ra ≤ 0 →
      (admissionRejectHTTP (AdmitError.rejected reason ra)).2 = "1") ∧
    (admissionRejectHTTP AdmitError.other).2 = "1" := by
  have hsec : (0 : Int) < second := by decide
  refine ⟨?_, ?_, ?_, by decide⟩
  · intro e
    cases e <;> rfl
  · intro reason ra q r hdecomp hr0 hrs hpos
    have hras : (admissionRejectHTTP (AdmitError.rejected reason ra)).2 =
        toString ((goDurationRound ra second).tdiv second) := by
      show toString ((goDurationRound (if 0 < ra then ra else second) second).tdiv second) =
        toString ((goDurationRound ra second).tdiv second)
      rw [if_pos hpos]
    rw [hras]
    have hmod : ra.tmod second = r := by
      have hnn : 0 ≤ ra := le_of_lt hpos
      rw [Int.tmod_eq_emod hnn (le_of_lt hsec), hdecomp, add_comm,
        Int.add_mul_emod_self_left, Int.emod_eq_of_lt hr0 hrs]
    unfold goDurationRound
    rw [if_neg (not_le.mpr hsec), hmod, if_neg (not_lt.mpr (le_of_lt hpos))]
    by_cases hhalf : r + r < second
    · simp only [if_pos hhalf]
      have hq : ra - r = second * q := by rw [hdecomp]; ring
      rw [hq, Int.mul_tdiv_cancel_left q (ne_of_gt hsec)]
    · simp only [if_neg hhalf]
      have hq : ra + second - r = second * (q + 1) := by rw [hdecomp]; ring
      rw [hq, Int.mul_tdiv_cancel_left (q + 1) (ne_of_gt hsec)]
  · intro reason ra hra
    show toString ((goDurationRound (if 0 < ra then ra else second) second).tdiv second) = "1"
    rw [if_neg (not_lt.mpr hra)]
    decide

/-- Witness for `c9_admission_mapping`: a `queue_full` rejection with
`RetryAfter` 1.4s gets status 429 and `Retry-After: 1` (rounded down,
where a ceiling would give 2). -/
theorem c9_admission_mapping_witness :
    (admissionRejectHTTP (AdmitError.rejected "queue_full" (1400 * millisecond))).1 = 429 ∧
    (admissionRejectHTTP (AdmitError.rejected "queue_full" (1400 * millisecond))).2 =
      toString (1 : Int) ∧
    (admissionRejectHTTP (AdmitError.rejected "shutting_down" 0)).2 = "1" := by
  refine ⟨c9_admission_mapping.1 _, ?_, c9_admission_mapping.2.2.1 "shutting_down" 0 (by decide)⟩
  have h := c9_admission_mapping.2.1 "queue_full" (1400 * millisecond) 1 (400 * millisecond)
    (by decide) (by decide) (by decide) (by decide)
  rw [h]
  decide

/-! ### C4 -/

theorem applyWindows_cons (existing : List LimitWindow) (now : GoTime) (aw : GoDuration)
    (p : ParsedWindow) (rest : List ParsedWindow) :
    applyWindows existing now aw (p :: rest) =
      if p.limit ≤ 0 ∨ p.window ≤ 0 then applyWindows existing now aw rest
      else
        ((match lookupWindow existing (p.window + aw) with
          | some old =>
            if now < old.resetAt then
              (⟨p.limit,
                (if (if p.limit < p.count then p.limit else p.count) < old.used then old.used
                 else if p.limit < p.count then p.limit else p.count),
                p.window + aw, old.resetAt⟩ : LimitWindow)
            else ⟨p.limit, if p.limit < p.count then p.limit else p.count,
              p.window + aw, now + p.window + aw⟩
          | none => ⟨p.limit, if p.limit < p.count then p.limit else p.count,
              p.window + aw, now + p.window + aw⟩) :: (applyWindows existing now aw rest).1,
         (0 < if p.limit < p.count then p.limit else p.count) ||
           (applyWindows existing now aw rest).2) := by
  rfl

theorem ite_lt_max (a b : Int) : (if b < a then a else b) = max a b := by
  rcases lt_or_le b a with h | h
  · rw [if_pos h, max_eq_left (le_of_lt h)]
  · rw [if_neg (not_lt.mpr h), max_eq_right h]

/-- C4: applying a parsed window whose (margin-adjusted) duration matches
an existing window whose `resetAt` is still in the future preserves that
`resetAt` (no re-anchoring to `now + window`) and sets `used` to
`max(old used, min(parsed count, parsed limit))`. -/
theorem c4_apply_anchoring (s : RateState) (p : ParsedWindow) (old : LimitWindow)
    (retryAfter : Option GoTime) (applyRetry : Bool) (now : GoTime) (aw : GoDuration)
    (hl : 0 < p.limit) (hw : 0 < p.window)
    (hfound : lookupWindow s.windows (p.window + aw) = some old)
    (hactive : now < old.resetAt) :
    (s.apply [p] retryAfter applyRetry now aw).windows =
      [⟨p.limit, max old.used (min p.count p.limit), p.window + aw, old.resetAt⟩] := by
  have hguard : ¬(p.limit ≤ 0 ∨ p.window ≤ 0) := by
    push_neg
    exact ⟨hl, hw⟩
  have h1 : (s.apply [p] retryAfter applyRetry now aw).windows =
      (applyWindows s.windows now aw [p]).1 := rfl
  rw [h1, applyWindows_cons, if_neg hguard, hfound]
  show (if now < old.resetAt then _ else _) :: _ = _
  rw [if_pos hactive]
  have hcap : (if p.limit < p.count then p.limit else p.count) = min p.count p.limit := by
    rcases lt_or_le p.limit p.count with h | h
    · rw [if_pos h, min_eq_right (le_of_lt h)]
    · rw [if_neg (not_lt.mpr h), min_eq_left h]
  rw [hcap, ite_lt_max]
  rfl

/-- Witness for `c4_apply_anchoring`: a concrete state whose 1-second
window is still active when a same-duration observation arrives. -/
theorem c4_apply_anchoring_witness :
    (RateState.apply ⟨[⟨100, 50, second, 1000 * second + second⟩], 0, 1000 * second⟩
      [⟨20, 3, second⟩] none false (1000 * second) 0).windows =
      [⟨20, max 50 (min 3 20), second + 0, 1000 * second + second⟩] := by
  exact c4_apply_anchoring ⟨[⟨100, 50, second, 1000 * second + second⟩], 0, 1000 * second⟩
    ⟨20, 3, second⟩ ⟨100, 50, second, 1000 * second + second⟩ none false (1000 * second) 0
    (by decide) (by decide) (by decide) (by decide)

/-! ### C3 -/

theorem parseLimitEntry_pos (l : List Char) (lw : Int × Int)
    (h : parseLimitEntry l = some lw) : 0 < lw.1 ∧ 0 < lw.2 := by
  unfold parseLimitEntry at h
  split at h
  · exact Option.noConfusion h
  · split at h
    · exact Option.noConfusion h
    · split at h
      · exact Option.noConfusion h
      · split at h
        · exact Option.noConfusion h
        · split at h
          · exact Option.noConfusion h
          · injection h with h
            subst h
            constructor <;> omega

theorem parseCountEntry_nonneg (c : List Char) : 0 ≤ parseCountEntry c := by
  unfold parseCountEntry
  split
  · exact le_refl 0
  · split
    · split <;> omega
    · exact le_refl 0

theorem parseEntries_mem (ls cs : List (List Char)) (p : ParsedWindow)
    (h : p ∈ parseEntries ls cs) : 0 < p.limit ∧ 0 ≤ p.count := by
  induction ls generalizing cs with
  | nil => exact absurd h (by simp [parseEntries])
  | cons l rest ih =>
    rw [parseEntries_cons] at h
    cases he : parseLimitEntry l with
    | none =>
      rw [he] at h
      exact ih cs.tail h
    | some lw =>
      rw [he] at h
      rcases List.mem_cons.mp h with hp | hp
      · subst hp
        refine ⟨(parseLimitEntry_pos l lw he).1, ?_⟩
        cases cs with
        | nil => exact le_refl 0
        | cons c _ => exact parseCountEntry_nonneg c
      · exact ih cs.tail hp

theorem parseRateHeader_mem (lh ch : String) (p : ParsedWindow)
    (h : p ∈ parseRateHeader lh ch) : 0 < p.limit ∧ 0 ≤ p.count := by
  unfold parseRateHeader at h
  revert h
  cases hs : goSplitList ',' (trimSpaceList lh.data) with
  | nil => intro h; exact absurd h (by simp)
  | cons first restAll =>
    show p ∈ (if first = [] then []
      else parseEntries (first :: restAll) (goSplitList ',' (trimSpaceList ch.data))) → _
    by_cases hf : first = []
    · rw [if_pos hf]
      intro h
      exact absurd h (by simp)
    · rw [if_neg hf]
      exact parseEntries_mem _ _ p

theorem lookupWindow_mem (ws : List LimitWindow) (d : GoDuration) (w : LimitWindow)
    (h : lookupWindow ws d = some w) : w ∈ ws := by
  have aux : ∀ (ws : List LimitWindow) (acc : Option LimitWindow),
      ws.foldl (fun acc w' => if w'.window = d then some w' else acc) acc = some w →
      w ∈ ws ∨ acc = some w := by
    intro ws
    induction ws with
    | nil => exact fun acc h => Or.inr h
    | cons v vs ih =>
      intro acc h
      rcases ih _ h with hm | hacc
      · exact Or.inl (List.mem_cons_of_mem v hm)
      · have hacc2 : (if v.window = d then some v else acc) = some w := hacc
        by_cases hv : v.window = d
        · rw [if_pos hv] at hacc2
          injection hacc2 with hacc2
          exact Or.inl (hacc2 ▸ List.mem_cons_self v vs)
        · rw [if_neg hv] at hacc2
          exact Or.inr hacc2
  rcases aux ws none h with hm | hacc
  · exact hm
  · exact Option.noConfusion hacc

theorem applyWindows_inv (existing : List LimitWindow) (now : GoTime) (aw : GoDuration)
    (ps : List ParsedWindow)
    (hex : ∀ w ∈ existing, 0 < w.limit ∧ 0 ≤ w.used)
    (hps : ∀ p ∈ ps, 0 < p.limit ∧ 0 ≤ p.count) :
    ∀ w ∈ (applyWindows existing now aw ps).1, 0 < w.limit ∧ 0 ≤ w.used := by
  induction ps with
  | nil => intro w hw; exact absurd hw (by simp [applyWindows])
  | cons p rest ih =>
    intro w hw
    rw [applyWindows_cons] at hw
    by_cases hguard : p.limit ≤ 0 ∨ p.window ≤ 0
    · rw [if_pos hguard] at hw
      exact ih (fun q hq => hps q (by simp [hq])) w hw
    · rw [if_neg hguard] at hw
      have hp := hps p (by simp)
      have hcap : 0 < p.limit ∧
          0 ≤ (if p.limit < p.count then p.limit else p.count) := by
        constructor
        · exact hp.1
        · split <;> omega
      rcases List.mem_cons.mp hw with hh | ht
      · subst hh
        cases hlk : lookupWindow existing (p.window + aw) with
        | none => exact hcap
        | some old =>
          have hold := hex old (lookupWindow_mem _ _ _ hlk)
          dsimp only
          by_cases hact : now < old.resetAt
          · rw [if_pos hact]
            refine ⟨hp.1, ?_⟩
            show (0 : Int) ≤ if (if p.limit < p.count then p.limit else p.count) < old.used
              then old.used else (if p.limit < p.count then p.limit else p.count)
            have h1 := hcap.2
            have h2 := hold.2
            split <;> omega
          · rw [if_neg hact]
            exact hcap
      · exact ih (fun q hq => hps q (by simp [hq])) w ht

theorem advanceWindow_inv (now : GoTime) (w : LimitWindow)
    (h : 0 < w.limit ∧ 0 ≤ w.used) :
    0 < (advanceWindow now w).limit ∧ 0 ≤ (advanceWindow now w).used := by
  unfold advanceWindow
  split
  · exact ⟨h.1, le_refl 0⟩
  · exact h

theorem advanceWindow_bounds (now : GoTime) (w : LimitWindow)
    (h : 0 ≤ w.used ∧ w.used ≤ w.limit) :
    0 ≤ (advanceWindow now w).used ∧ (advanceWindow now w).used ≤ (advanceWindow now w).limit := by
  unfold advanceWindow
  split
  · refine ⟨le_refl 0, ?_⟩
    show (0 : Int) ≤ w.limit
    have h1 := h.1
    have h2 := h.2
    omega
  · exact h

theorem consumeAdvance_mem (now : GoTime) (ws : List LimitWindow) (w : LimitWindow)
    (h : w ∈ (consumeAdvance now ws).2) :
    w ∈ ws ∨ ∃ x ∈ ws, w = advanceWindow now x := by
  obtain ⟨k, hk⟩ := consumeAdvance_prefix now ws
  rw [hk] at h
  rcases List.mem_append.mp h with hm | hm
  · obtain ⟨x, hx, hxe⟩ := List.mem_map.mp hm
    exact Or.inr ⟨x, List.take_subset k ws hx, hxe.symm⟩
  · exact Or.inl (List.drop_subset k ws hm)

theorem consumeAdvance_true_bounds (now : GoTime) (ws : List LimitWindow)
    (h : (consumeAdvance now ws).1 = true) :
    ∀ w ∈ (consumeAdvance now ws).2, w.used < w.limit := by
  induction ws with
  | nil => intro w hw; exact absurd hw (by simp [consumeAdvance])
  | cons v rest ih =>
    rw [consumeAdvance_cons] at h ⊢
    by_cases hv : (advanceWindow now v).limit ≤ (advanceWindow now v).used
    · rw [if_pos hv] at h
      exact absurd h (by simp)
    · rw [if_neg hv] at h ⊢
      intro w hw
      rcases List.mem_cons.mp hw with hh | ht
      · subst hh
        omega
      · exact ih h w ht

/-- C3 counterexample: a reachable state violating `used ≤ limit`.
A first observation advertises limit 100 with 50 used; a second
observation inside the same upstream window shrinks the limit to 20;
`apply` caps the freshly parsed count at the new limit *before* merging
with the carried-over `used`, leaving `used = 50 > 20 = limit`. -/
theorem c3_counterexample :
    Reachable ((RateState.fresh.apply (parseRateHeader "100:1" "50:1") none false
        (1000 * second) 0).apply (parseRateHeader "20:1" "0:1") none false (1000 * second) 0) ∧
    ((RateState.fresh.apply (parseRateHeader "100:1" "50:1") none false
        (1000 * second) 0).apply (parseRateHeader "20:1" "0:1") none false
        (1000 * second) 0).windows = [⟨20, 50, second, 1000 * second + second⟩] ∧
    ¬∀ w ∈ ((RateState.fresh.apply (parseRateHeader "100:1" "50:1") none false
        (1000 * second) 0).apply (parseRateHeader "20:1" "0:1") none false
        (1000 * second) 0).windows, w.used ≤ w.limit := by
  refine ⟨?_, by decide, by decide⟩
  exact Reachable.apply _ "20:1" "0:1" none false (1000 * second) 0
    (Reachable.apply _ "100:1" "50:1" none false (1000 * second) 0 Reachable.fresh)

/-- C3 (amended): every window of every reachable rate state satisfies
`0 < limit` and `0 ≤ used`, and `nextAllowed` and `consume` preserve
`0 ≤ used ≤ limit`; `apply` alone can leave `used > limit`, exactly when
an observation shrinks the limit of a still-active window below its
carried-over `used` (see the counterexample). -/
theorem c3_invariant :
    (∀ s, Reachable s → ∀ w ∈ s.windows, 0 < w.limit ∧ 0 ≤ w.used) ∧
    (∀ (s : RateState) (now : GoTime) (bp : Bool),
      (∀ w ∈ s.windows, 0 ≤ w.used ∧ w.used ≤ w.limit) →
      ∀ w ∈ (s.nextAllowed now bp).2.windows, 0 ≤ w.used ∧ w.used ≤ w.limit) ∧
    (∀ (s : RateState) (now : GoTime),
      (∀ w ∈ s.windows, 0 ≤ w.used ∧ w.used ≤ w.limit) →
      ∀ w ∈ (s.consume now).2.windows, 0 ≤ w.used ∧ w.used ≤ w.limit) := by
  refine ⟨?_, ?_, ?_⟩
  · intro s hs
    induction hs with
    | fresh => intro w hw; exact absurd hw (by simp [RateState.fresh])
    | next s now bp _ ih =>
      intro w hw
      have : (s.nextAllowed now bp).2.windows = s.windows.map (advanceWindow now) := rfl
      rw [this] at hw
      obtain ⟨x, hx, hxe⟩ := List.mem_map.mp hw
      exact hxe ▸ advanceWindow_inv now x (ih x hx)
    | consume s now _ ih =>
      intro w hw
      rw [consume_eq] at hw
      by_cases hb : now < s.blockedUntil
      · rw [if_pos hb] at hw
        exact ih w hw
      · rw [if_neg hb] at hw
        by_cases ht : (consumeAdvance now s.windows).1 = true
        · rw [if_pos ht] at hw
          obtain ⟨x, hx, hxe⟩ := List.mem_map.mp hw
          have hx0 : 0 < x.limit ∧ 0 ≤ x.used := by
            rcases consumeAdvance_mem now s.windows x hx with hm | ⟨y, hy, hye⟩
            · exact ih x hm
            · exact hye ▸ advanceWindow_inv now y (ih y hy)
          subst hxe
          refine ⟨hx0.1, ?_⟩
          show (0 : Int) ≤ x.used + 1
          have h2 := hx0.2
          omega
        · rw [if_neg ht] at hw
          rcases consumeAdvance_mem now s.windows w hw with hm | ⟨y, hy, hye⟩
          · exact ih w hm
          · exact hye ▸ advanceWindow_inv now y (ih y hy)
    | apply s lh ch retryAfter applyRetry now aw _ ih =>
      intro w hw
      unfold RateState.apply at hw
      by_cases hp : parseRateHeader lh ch = []
      · rw [if_pos hp] at hw
        exact ih w hw
      · rw [if_neg hp] at hw
        exact applyWindows_inv s.windows now aw (parseRateHeader lh ch) ih
          (fun q hq => parseRateHeader_mem lh ch q hq) w hw
  · intro s now bp h w hw
    have heq : (s.nextAllowed now bp).2.windows = s.windows.map (advanceWindow now) := rfl
    rw [heq] at hw
    obtain ⟨x, hx, hxe⟩ := List.mem_map.mp hw
    exact hxe ▸ advanceWindow_bounds now x (h x hx)
  · intro s now h w hw
    rw [consume_eq] at hw
    by_cases hb : now < s.blockedUntil
    · rw [if_pos hb] at hw
      exact h w hw
    · rw [if_neg hb] at hw
      by_cases ht : (consumeAdvance now s.windows).1 = true
      · rw [if_pos ht] at hw
        obtain ⟨x, hx, hxe⟩ := List.mem_map.mp hw
        have hlt := consumeAdvance_true_bounds now s.windows ht x hx
        have hx0 : 0 ≤ x.used := by
          rcases consumeAdvance_mem now s.windows x hx with hm | ⟨y, hy, hye⟩
          · exact (h x hm).1
          · exact hye ▸ (advanceWindow_bounds now y (h y hy)).1
        subst hxe
        constructor
        · show (0 : Int) ≤ x.used + 1
          omega
        · show x.used + 1 ≤ x.limit
          omega
      · rw [if_neg ht] at hw
        rcases consumeAdvance_mem now s.windows w hw with hm | ⟨y, hy, hye⟩
        · exact h w hm
        · exact hye ▸ advanceWindow_bounds now y (h y hy)

/-- Witness for `c3_invariant`: the preservation parts applied to a
concrete in-bounds state. -/
theorem c3_invariant_witness :
    (∀ w ∈ ([⟨5, 2, 5 * second, 1000 * second + 5 * second⟩] : List LimitWindow),
      0 ≤ w.used ∧ w.used ≤ w.limit) ∧
    (∀ w ∈ ((⟨[⟨5, 2, 5 * second, 1000 * second + 5 * second⟩], 0, 0⟩ : RateState).consume
        (1000 * second)).2.windows, 0 ≤ w.used ∧ w.used ≤ w.limit) := by
  refine ⟨by decide, ?_⟩
  exact c3_invariant.2.2 ⟨[⟨5, 2, 5 * second, 1000 * second + 5 * second⟩], 0, 0⟩
    (1000 * second) (by decide)

/-! ### C7 -/

theorem selectMin_cons (t : GoTime) (rest : List GoTime) (i bi : Int) (ba : GoTime) :
    selectMin (t :: rest) i bi ba =
      if bi < 0 ∨ t < ba then selectMin rest (i + 1) i t
      else selectMin rest (i + 1) bi ba := by
  rfl

theorem pickKeyLoop_cons (now : GoTime) (region bucket : String) (bp : Bool)
    (k : KeyState) (rest : List KeyState) (i bi : Int) (ba : GoTime) :
    pickKeyLoop now region bucket bp (k :: rest) i bi ba =
      ((keyReadyAt now region bucket bp k).2 ::
        (if bi < 0 ∨ (keyReadyAt now region bucket bp k).1 < ba then
          pickKeyLoop now region bucket bp rest (i + 1) i (keyReadyAt now region bucket bp k).1
         else pickKeyLoop now region bucket bp rest (i + 1) bi ba).1,
       (if bi < 0 ∨ (keyReadyAt now region bucket bp k).1 < ba then
          pickKeyLoop now region bucket bp rest (i + 1) i (keyReadyAt now region bucket bp k).1
        else pickKeyLoop now region bucket bp rest (i + 1) bi ba).2) := by
  rfl

theorem pickKeyLoop_snd (now : GoTime) (region bucket : String) (bp : Bool)
    (ks : List KeyState) : ∀ (i bi : Int) (ba : GoTime),
    (pickKeyLoop now region bucket bp ks i bi ba).2 =
      selectMin (ks.map (readyTime now region bucket bp)) i bi ba := by
  induction ks with
  | nil => intro i bi ba; rfl
  | cons k rest ih =>
    intro i bi ba
    rw [pickKeyLoop_cons, List.map_cons, selectMin_cons]
    simp only [readyTime]
    by_cases hc : bi < 0 ∨ (keyReadyAt now region bucket bp k).1 < ba
    · rw [if_pos hc, if_pos hc]
      exact ih (i + 1) i _
    · rw [if_neg hc, if_neg hc]
      exact ih (i + 1) bi ba

theorem selectMin_spec (ts : List GoTime) : ∀ (i bi : Int) (ba : GoTime), 0 ≤ i → 0 ≤ bi →
    (selectMin ts i bi ba = (bi, ba) ∧ ∀ t ∈ ts, ba ≤ t) ∨
    (∃ k : Fin ts.length,
      (selectMin ts i bi ba).1 = i + (k : ℕ) ∧
      (selectMin ts i bi ba).2 = ts.get k ∧
      ts.get k < ba ∧
      (∀ j : Fin ts.length, ts.get k ≤ ts.get j) ∧
      (∀ j : Fin ts.length, (j : ℕ) < (k : ℕ) → ts.get k < ts.get j)) := by
  induction ts with
  | nil =>
    intro i bi ba hi hbi
    exact Or.inl ⟨rfl, by simp⟩
  | cons t rest ih =>
    intro i bi ba hi hbi
    rw [selectMin_cons]
    by_cases hc : t < ba
    · rw [if_pos (Or.inr hc)]
      rcases ih (i + 1) i t (by omega) hi with ⟨heq, hall⟩ | ⟨k, h1, h2, h3, h4, h5⟩
      · refine Or.inr ⟨⟨0, by simp⟩, ?_, ?_, ?_, ?_, ?_⟩
        · rw [heq]
          simp
        · rw [heq]
          rfl
        · exact hc
        · intro j
          induction j using Fin.cases with
          | zero => exact le_refl t
          | succ j' => exact hall _ (List.get_mem rest j'.1 j'.2)
        · intro j hj
          exact absurd hj (Nat.not_lt_zero _)
      · refine Or.inr ⟨k.succ, ?_, ?_, ?_, ?_, ?_⟩
        · rw [h1, Fin.val_succ]
          push_cast
          ring
        · rw [h2]
          rfl
        · exact lt_trans h3 hc
        · intro j
          induction j using Fin.cases with
          | zero => exact le_of_lt h3
          | succ j' => exact h4 j'
        · intro j hj
          induction j using Fin.cases with
          | zero => exact h3
          | succ j' =>
            refine h5 j' ?_
            simpa using hj
    · have hcond : ¬(bi < 0 ∨ t < ba) := by
        push_neg
        exact ⟨hbi, not_lt.mp hc⟩
      rw [if_neg hcond]
      rcases ih (i + 1) bi ba (by omega) hbi with ⟨heq, hall⟩ | ⟨k, h1, h2, h3, h4, h5⟩
      · refine Or.inl ⟨heq, ?_⟩
        intro x hx
        rcases List.mem_cons.mp hx with rfl | hm
        · exact not_lt.mp hc
        · exact hall x hm
      · refine Or.inr ⟨k.succ, ?_, ?_, h3, ?_, ?_⟩
        · rw [h1, Fin.val_succ]
          push_cast
          ring
        · rw [h2]
          rfl
        · intro j
          induction j using Fin.cases with
          | zero => exact le_of_lt (lt_of_lt_of_le h3 (not_lt.mp hc))
          | succ j' => exact h4 j'
        · intro j hj
          induction j using Fin.cases with
          | zero => exact lt_of_lt_of_le h3 (not_lt.mp hc)
          | succ j' =>
            refine h5 j' ?_
            simpa using hj

theorem selectMin_top (ts : List GoTime) (h : ts ≠ []) :
    ∃ k : Fin ts.length,
      (selectMin ts 0 (-1) 0).1 = ((k : ℕ) : Int) ∧
      (selectMin ts 0 (-1) 0).2 = ts.get k ∧
      (∀ j : Fin ts.length, ts.get k ≤ ts.get j) ∧
      (∀ j : Fin ts.length, (j : ℕ) < (k : ℕ) → ts.get k < ts.get j) := by
  cases ts with
  | nil => exact absurd rfl h
  | cons t rest =>
    rw [selectMin_cons, if_pos (Or.inl (by omega))]
    rcases selectMin_spec rest (0 + 1) 0 t (by omega) (by omega) with
      ⟨heq, hall⟩ | ⟨k, h1, h2, h3, h4, h5⟩
    · refine ⟨⟨0, by simp⟩, ?_, ?_, ?_, ?_⟩
      · rw [heq]
        simp
      · rw [heq]
        rfl
      · intro j
        induction j using Fin.cases with
        | zero => exact le_refl t
        | succ j' => exact hall _ (List.get_mem rest j'.1 j'.2)
      · intro j hj
        exact absurd hj (Nat.not_lt_zero _)
    · refine ⟨k.succ, ?_, ?_, ?_, ?_⟩
      · rw [h1, Fin.val_succ]
        push_cast
        ring
      · rw [h2]
        rfl
      · intro j
        induction j using Fin.cases with
        | zero => exact le_of_lt h3
        | succ j' => exact h4 j'
      · intro j hj
        induction j using Fin.cases with
        | zero => exact h3
        | succ j' =>
          refine h5 j' ?_
          simpa using hj

theorem pickKey_eq (now : GoTime) (keys : List KeyState) (region bucket : String)
    (p : Priority) :
    pickKey now keys region bucket p =
      (if (pickKeyLoop now region bucket (decide (p = Priority.high)) keys 0 (-1) 0).2.1 < 0
       then ((-1, now + second),
         (pickKeyLoop now region bucket (decide (p = Priority.high)) keys 0 (-1) 0).1)
       else (((pickKeyLoop now region bucket (decide (p = Priority.high)) keys 0 (-1) 0).2.1,
          (pickKeyLoop now region bucket (decide (p = Priority.high)) keys 0 (-1) 0).2.2),
         (pickKeyLoop now region bucket (decide (p = Priority.high)) keys 0 (-1) 0).1)) := by
  rfl

theorem pickKey_nonempty_spec (now : GoTime) (region bucket : String) (p : Priority)
    (keys : List KeyState) (h : keys ≠ []) :
    ∃ i : Fin (keys.map (readyTime now region bucket (decide (p = Priority.high)))).length,
      (pickKey now keys region bucket p).1 =
        (((i : ℕ) : Int),
          (keys.map (readyTime now region bucket (decide (p = Priority.high)))).get i) ∧
      (∀ j : Fin (keys.map (readyTime now region bucket (decide (p = Priority.high)))).length,
        (keys.map (readyTime now region bucket (decide (p = Priority.high)))).get i ≤
        (keys.map (readyTime now region bucket (decide (p = Priority.high)))).get j) ∧
      (∀ j : Fin (keys.map (readyTime now region bucket (decide (p = Priority.high)))).length,
        (j : ℕ) < (i : ℕ) →
        (keys.map (readyTime now region bucket (decide (p = Priority.high)))).get i <
          (keys.map (readyTime now region bucket (decide (p = Priority.high)))).get j) := by
  have hts : keys.map (readyTime now region bucket (decide (p = Priority.high))) ≠ [] := by
    simpa using h
  obtain ⟨k, h1, h2, h3, h4⟩ :=
    selectMin_top (keys.map (readyTime now region bucket (decide (p = Priority.high)))) hts
  have hsel : (pickKeyLoop now region bucket (decide (p = Priority.high)) keys 0 (-1) 0).2 =
      selectMin (keys.map (readyTime now region bucket (decide (p = Priority.high)))) 0 (-1) 0 :=
    pickKeyLoop_snd now region bucket (decide (p = Priority.high)) keys 0 (-1) 0
  have hnneg : ¬(pickKeyLoop now region bucket (decide (p = Priority.high)) keys 0 (-1) 0).2.1 < 0 := by
    rw [hsel, h1]
    omega
  refine ⟨k, ?_, h3, h4⟩
  rw [pickKey_eq, if_neg hnneg]
  show ((pickKeyLoop now region bucket (decide (p = Priority.high)) keys 0 (-1) 0).2.1,
    (pickKeyLoop now region bucket (decide (p = Priority.high)) keys 0 (-1) 0).2.2) = _
  rw [hsel, h1, h2]

/-- C7: over a non-empty credential list, `pickKey` returns the index and
ready time `max(appReadyAt, methodReadyAt)` of the credential whose ready
time is earliest, resolving ties by the lowest index (every strictly
smaller index has a strictly later ready time); an empty credential list
yields the sentinel `(-1, now + 1s)`. -/
theorem c7_pickKey (now : GoTime) (region bucket : String) (p : Priority)
    (keys : List KeyState) :
    (keys = [] → (pickKey now keys region bucket p).1 = (-1, now + second)) ∧
    (keys ≠ [] →
      ∃ i : Fin (keys.map (readyTime now region bucket (decide (p = Priority.high)))).length,
        (pickKey now keys region bucket p).1 =
          (((i : ℕ) : Int),
            (keys.map (readyTime now region bucket (decide (p = Priority.high)))).get i) ∧
        (∀ j : Fin (keys.map (readyTime now region bucket (decide (p = Priority.high)))).length,
          (keys.map (readyTime now region bucket (decide (p = Priority.high)))).get i ≤
          (keys.map (readyTime now region bucket (decide (p = Priority.high)))).get j) ∧
        (∀ j : Fin (keys.map (readyTime now region bucket (decide (p = Priority.high)))).length,
          (j : ℕ) < (i : ℕ) →
          (keys.map (readyTime now region bucket (decide (p = Priority.high)))).get i <
            (keys.map (readyTime now region bucket (decide (p = Priority.high)))).get j)) := by
  constructor
  · intro h
    subst h
    rfl
  · exact pickKey_nonempty_spec now region bucket p keys

/-- Witness for `c7_pickKey`: a single fresh credential is picked at
index 0 with ready time `now`; the empty list yields the sentinel. -/
theorem c7_pickKey_witness :
    (pickKey 0 ([] : List KeyState) "na1" "na1:b" Priority.normal).1 = (-1, 0 + second) ∧
    (pickKey 0 [newKeyState] "na1" "na1:b" Priority.normal).1 = (0, 0) := by
  constructor
  · exact (c7_pickKey 0 "na1" "na1:b" Priority.normal []).1 rfl
  · obtain ⟨i, h1, h2, h3⟩ :=
      (c7_pickKey 0 "na1" "na1:b" Priority.normal [newKeyState]).2 (by simp)
    rw [h1]
    have hlen : ([newKeyState].map
        (readyTime 0 "na1" "na1:b" (decide (Priority.normal = Priority.high)))).length = 1 := by
      simp
    rcases i with ⟨iv, hv⟩
    have hiv : iv = 0 := by
      rw [hlen] at hv
      omega
    subst hiv
    rfl

/-! ### C8 -/

/-- C8: when `handleAdmit` sees a non-cancelled request whose bucket
already has depth at least `QueueCapacity`, it replies `queue_full`
without enqueueing (buckets, wakes unchanged; only `pickKey`'s window
advancement touches the credentials), and the rejection's `RetryAfter`
is the earliest ready time from `pickKey` minus `now`, floored at one
second — hence always at least one second. -/
theorem c8_queue_full (cfg : Config) (now : GoTime) (req : AdmitRequest)
    (keys : List KeyState) (buckets : Buckets) (wakes : Wakes) (b : BucketQueue)
    (hc : req.cancelled = false)
    (hb : lookupBucket buckets req.bucket = some b)
    (hdepth : cfg.queueCapacity ≤ b.depth) :
    handleAdmit cfg now req keys buckets wakes =
      ⟨(pickKey now keys b.region b.bucket req.priority).2, buckets, wakes,
        [(req, Outcome.rejected "queue_full"
          (maxDuration ((pickKey now keys b.region b.bucket req.priority).1.2 - now) second))]⟩ ∧
    second ≤ maxDuration ((pickKey now keys b.region b.bucket req.priority).1.2 - now) second := by
  constructor
  · unfold handleAdmit
    rw [hc]
    simp only [Bool.false_eq_true, if_false, ite_false]
    rw [hb]
    simp only
    rw [if_pos hdepth]
  · unfold maxDuration
    by_cases hm : second < (pickKey now keys b.region b.bucket req.priority).1.2 - now
    · rw [if_pos hm]
      exact le_of_lt hm
    · rw [if_neg hm]

/-- Witness for `c8_queue_full`: a capacity-1 bucket already holding one
queued request rejects the next with `queue_full` and `RetryAfter` 1s. -/
theorem c8_queue_full_witness :
    ((⟨1, 1, 0, ""⟩ : Config).queueCapacity ≤
      (⟨"na1", "na1:b", [], [⟨false, "na1", "na1:b", Priority.normal, 0⟩]⟩ : BucketQueue).depth) ∧
    (handleAdmit ⟨1, 1, 0, ""⟩ 0 ⟨false, "na1", "na1:b", Priority.normal, 0⟩ [newKeyState]
      [("na1:b", ⟨"na1", "na1:b", [], [⟨false, "na1", "na1:b", Priority.normal, 0⟩]⟩)] []).out =
      [(⟨false, "na1", "na1:b", Priority.normal, 0⟩,
        Outcome.rejected "queue_full" second)] := by
  refine ⟨by decide, ?_⟩
  have h := (c8_queue_full ⟨1, 1, 0, ""⟩ 0 ⟨false, "na1", "na1:b", Priority.normal, 0⟩
    [newKeyState] [("na1:b", ⟨"na1", "na1:b", [], [⟨false, "na1", "na1:b", Priority.normal, 0⟩]⟩)]
    [] ⟨"na1", "na1:b", [], [⟨false, "na1", "na1:b", Priority.normal, 0⟩]⟩
    rfl (by decide) (by decide)).1
  rw [h]
  decide

/-! ### C10 -/

theorem pickKeyLoop_fst_length (now : GoTime) (region bucket : String) (bp : Bool)
    (ks : List KeyState) : ∀ (i bi : Int) (ba : GoTime),
    (pickKeyLoop now region bucket bp ks i bi ba).1.length = ks.length := by
  induction ks with
  | nil => intro i bi ba; rfl
  | cons k rest ih =>
    intro i bi ba
    rw [pickKeyLoop_cons]
    show ((keyReadyAt now region bucket bp k).2 :: _).length = rest.length + 1
    rw [List.length_cons]
    by_cases hc : bi < 0 ∨ (keyReadyAt now region bucket bp k).1 < ba
    · rw [if_pos hc, ih]
    · rw [if_neg hc, ih]

theorem pickKey_keys_length (now : GoTime) (keys : List KeyState) (region bucket : String)
    (p : Priority) : (pickKey now keys region bucket p).2.length = keys.length := by
  rw [pickKey_eq]
  by_cases hn : (pickKeyLoop now region bucket (decide (p = Priority.high)) keys 0 (-1) 0).2.1 < 0
  · rw [if_pos hn]
    exact pickKeyLoop_fst_length now region bucket _ keys 0 (-1) 0
  · rw [if_neg hn]
    exact pickKeyLoop_fst_length now region bucket _ keys 0 (-1) 0

theorem pickKey_fst_nonneg (now : GoTime) (keys : List KeyState) (region bucket : String)
    (p : Priority) (h : keys ≠ []) : 0 ≤ (pickKey now keys region bucket p).1.1 := by
  obtain ⟨i, h1, _, _⟩ := pickKey_nonempty_spec now region bucket p keys h
  rw [h1]
  exact Int.natCast_nonneg _

theorem pickKey_keys_ne_nil (now : GoTime) (keys : List KeyState) (region bucket : String)
    (p : Priority) (h : keys ≠ []) : (pickKey now keys region bucket p).2 ≠ [] := by
  intro he
  have hl := pickKey_keys_length now keys region bucket p
  rw [he] at hl
  exact h (List.eq_nil_of_length_eq_zero hl.symm)

theorem set_ne_nil (keys : List KeyState) (n : Nat) (k : KeyState) (h : keys ≠ []) :
    keys.set n k ≠ [] := by
  intro he
  have hl : (keys.set n k).length = keys.length := List.length_set keys n k
  rw [he] at hl
  exact h (List.eq_nil_of_length_eq_zero hl.symm)

theorem dispatch_no_key (now : GoTime) :
    ∀ (fuel : Nat) (b : BucketQueue) (keys : List KeyState) (wakes : Wakes),
    keys ≠ [] → ∀ ro ∈ (dispatch now fuel b keys wakes).out, ∀ ra : GoDuration,
    ro.2 ≠ Outcome.rejected "no_available_key" ra := by
  intro fuel
  induction fuel with
  | zero =>
    intro b keys wakes h ro hro ra
    exact absurd hro (by simp [dispatch])
  | succ fuel ih =>
    intro b keys wakes h ro hro ra
    unfold dispatch at hro
    rcases hd : b.dequeueValid with ⟨o, b1⟩
    rw [hd] at hro
    cases o with
    | none =>
      exact absurd hro (by simp)
    | some req =>
      simp only at hro
      have hki : ¬(pickKey now keys b.region b.bucket req.priority).1.1 < 0 :=
        not_lt.mpr (pickKey_fst_nonneg now keys b.region b.bucket req.priority h)
      rw [if_neg hki] at hro
      have hkeys1 : (pickKey now keys b.region b.bucket req.priority).2 ≠ [] :=
        pickKey_keys_ne_nil now keys b.region b.bucket req.priority h
      by_cases hearl : now < (pickKey now keys b.region b.bucket req.priority).1.2
      · rw [if_pos hearl] at hro
        exact absurd hro (by simp)
      · rw [if_neg hearl] at hro
        by_cases hca : (((pickKey now keys b.region b.bucket req.priority).2.getD
            (pickKey now keys b.region b.bucket req.priority).1.1.toNat
            newKeyState).consumeApp b.region now).1
        · rw [if_neg (by simpa using hca)] at hro
          by_cases hcm : (((((pickKey now keys b.region b.bucket req.priority).2.getD
              (pickKey now keys b.region b.bucket req.priority).1.1.toNat
              newKeyState).consumeApp b.region now).2).consumeMethod b.bucket now).1
          · rw [if_neg (by simpa using hcm)] at hro
            rcases List.mem_cons.mp hro with hh | ht
            · rw [hh]
              simp
            · exact ih b1 _ wakes (set_ne_nil _ _ _ hkeys1) ro ht ra
          · rw [if_pos (by simpa using hcm)] at hro
            exact absurd hro (by simp)
        · rw [if_pos (by simpa using hca)] at hro
          exact absurd hro (by simp)

theorem handleAdmit_no_key (cfg : Config) (now : GoTime) (req : AdmitRequest)
    (keys : List KeyState) (buckets : Buckets) (wakes : Wakes) (h : keys ≠ []) :
    ∀ ro ∈ (handleAdmit cfg now req keys buckets wakes).out, ∀ ra : GoDuration,
    ro.2 ≠ Outcome.rejected "no_available_key" ra := by
  intro ro hro ra
  unfold handleAdmit at hro
  by_cases hc : req.cancelled
  · rw [if_pos hc] at hro
    rcases List.mem_singleton.mp hro with rfl
    simp
  · rw [if_neg hc] at hro
    simp only at hro
    by_cases hdepth : cfg.queueCapacity ≤
        (match lookupBucket buckets req.bucket with
         | some b => b
         | none => ⟨req.region, req.bucket, [], []⟩ : BucketQueue).depth
    · rw [if_pos hdepth] at hro
      rcases List.mem_singleton.mp hro with rfl
      simp
    · rw [if_neg hdepth] at hro
      exact dispatch_no_key now _ _ keys wakes h ro hro ra

/-- C10: `New` requires `KeyCount > 0`, the loop then allocates that many
credentials, and with a non-empty credential list `pickKey` always
returns an index ≥ 0, so neither `dispatch` nor `handleAdmit` can ever
emit a `no_available_key` rejection: that branch is unreachable for any
limiter `New` accepts. -/
theorem c10_no_available_key_unreachable (cfg : Config) (hcfg : newOk cfg = true) :
    loopInitKeys cfg ≠ [] ∧
    (∀ (now : GoTime) (fuel : Nat) (b : BucketQueue) (keys : List KeyState) (wakes : Wakes),
      keys.length = (loopInitKeys cfg).length →
      ∀ ro ∈ (dispatch now fuel b keys wakes).out, ∀ ra : GoDuration,
      ro.2 ≠ Outcome.rejected "no_available_key" ra) ∧
    (∀ (now : GoTime) (req : AdmitRequest) (keys : List KeyState) (buckets : Buckets)
      (wakes : Wakes), keys.length = (loopInitKeys cfg).length →
      ∀ ro ∈ (handleAdmit cfg now req keys buckets wakes).out, ∀ ra : GoDuration,
      ro.2 ≠ Outcome.rejected "no_available_key" ra) := by
  have hkc : 0 < cfg.keyCount ∧ 0 < cfg.queueCapacity := by
    simpa [newOk] using hcfg
  have hlen : (loopInitKeys cfg).length = cfg.keyCount.toNat := by
    unfold loopInitKeys
    exact List.length_replicate _ _
  have hpos : 0 < (loopInitKeys cfg).length := by
    rw [hlen]
    omega
  have hne : loopInitKeys cfg ≠ [] := by
    intro he
    rw [he] at hpos
    exact absurd hpos (by simp)
  refine ⟨hne, ?_, ?_⟩
  · intro now fuel b keys wakes hkl
    have : keys ≠ [] := by
      intro he
      rw [he] at hkl
      rw [← hkl] at hpos
      exact absurd hpos (by simp)
    exact dispatch_no_key now fuel b keys wakes this
  · intro now req keys buckets wakes hkl
    have : keys ≠ [] := by
      intro he
      rw [he] at hkl
      rw [← hkl] at hpos
      exact absurd hpos (by simp)
    exact handleAdmit_no_key cfg now req keys buckets wakes this

/-- Witness for `c10_no_available_key_unreachable`: a valid one-credential
configuration; the admitted request's reply is a ticket, never
`no_available_key`. -/
theorem c10_no_available_key_witness :
    newOk ⟨1, 4, 0, ""⟩ = true ∧
    ∀ ro ∈ (handleAdmit ⟨1, 4, 0, ""⟩ 0 ⟨false, "na1", "na1:b", Priority.normal, 0⟩
      [newKeyState] [] []).out, ∀ ra : GoDuration,
      ro.2 ≠ Outcome.rejected "no_available_key" ra := by
  refine ⟨by decide, ?_⟩
  exact (c10_no_available_key_unreachable ⟨1, 4, 0, ""⟩ (by decide)).2.2 0
    ⟨false, "na1", "na1:b", Priority.normal, 0⟩ [newKeyState] [] [] (by decide)

end RiftRelay
